import Mathlib

/-!
Verification development for the PositioningSystem repository.

The repository contains three groups of numeric code:
a k-nearest-neighbour RSSI fingerprint localizer (src/FingerPrint2.py and
src/OffOnFingerp.py, two near-identical variants), an N-lateration solver
built on an external iterative least-squares routine (src/tp1.py,
src/2DgraphicalNLat.py, src/3DResolutionNLat.py), and an unrelated
Markov-chain navigation toy (src/markov.py, src/ComplexMarkov.py) that the
specification excludes.

Real numbers of the Python sources are modelled by rationals wherever the
source only adds, subtracts, multiplies, divides and compares them, and by
real numbers where a square root occurs.  Python lists become Lean lists.
The stable Python list sort is modelled by insertion sort, which is stable
for the same comparator; where the source sorts tuples, the comparator is
the lexicographic tuple order of Python.
-/

namespace PositioningSystem

/-- A 2-dimensional position, the (x, y) coordinate pair used by the
fingerprint scripts. -/
abbrev Pos2 := ℚ × ℚ

/-- A vector of RSSI readings, one entry per access point index. -/
abbrev RSSI := List ℚ

/-- A 3-dimensional position, as used by src/tp1.py. -/
abbrev Point3 := ℚ × ℚ × ℚ

/-- Modelled from the spec: the L1 distance between two signal vectors,
the sum of absolute per-component differences.  This is the wording of
section 4.3 of the specification; it is compared below with the
rssi_difference functions of the two source files. -/
def l1dist (v w : RSSI) : ℚ :=
  (List.zipWith (fun a b => |a - b|) v w).sum

namespace FingerPrint2

/-- ReferenceLocation from src/FingerPrint2.py: an id, an (x, y)
coordinate pair and a list of RSSI values. -/
structure ReferenceLocation where
  location_id : ℕ
  coordinates : Pos2
  rssi_values : RSSI

/-- RSSIComparator.rssi_difference from src/FingerPrint2.py (lines 33-35):
the Python sum of abs(rssi1[i] - rssi2[i]) for i in range(len(rssi1)).
Python indexes rssi2 with indices of rssi1, so when rssi2 is shorter the
source raises an IndexError; the embedding totalises that access with a
default of 0 and every theorem below that needs the L1 reading carries an
explicit equal-length hypothesis. -/
def rssi_difference (rssi1 rssi2 : RSSI) : ℚ :=
  ((List.range rssi1.length).map fun i => |rssi1.getD i 0 - rssi2.getD i 0|).sum

/-- Python comparison of (distance, (x, y)) tuples, as used by the bare
list.sort() call in find_k_nearest of src/FingerPrint2.py: lexicographic
on the distance, then the x coordinate, then the y coordinate. -/
abbrev tupLe (a b : ℚ × Pos2) : Prop :=
  a.1 < b.1 ∨ (a.1 = b.1 ∧ (a.2.1 < b.2.1 ∨ (a.2.1 = b.2.1 ∧ a.2.2 ≤ b.2.2)))

instance : IsTotal (ℚ × Pos2) tupLe := by
  constructor
  intro a b
  rcases lt_trichotomy a.1 b.1 with h1 | h1 | h1
  · exact Or.inl (Or.inl h1)
  · rcases lt_trichotomy a.2.1 b.2.1 with h2 | h2 | h2
    · exact Or.inl (Or.inr ⟨h1, Or.inl h2⟩)
    · rcases le_total a.2.2 b.2.2 with h3 | h3
      · exact Or.inl (Or.inr ⟨h1, Or.inr ⟨h2, h3⟩⟩)
      · exact Or.inr (Or.inr ⟨h1.symm, Or.inr ⟨h2.symm, h3⟩⟩)
    · exact Or.inr (Or.inr ⟨h1.symm, Or.inl h2⟩)
  · exact Or.inr (Or.inl h1)

instance : IsTrans (ℚ × Pos2) tupLe := by
  constructor
  intro a b c hab hbc
  rcases hab with h1 | ⟨h1, h2⟩ <;> rcases hbc with g1 | ⟨g1, g2⟩
  · exact Or.inl (h1.trans g1)
  · exact Or.inl (h1.trans_eq g1)
  · exact Or.inl (h1.trans_lt g1)
  · refine Or.inr ⟨h1.trans g1, ?_⟩
    rcases h2 with h2 | ⟨h2, h3⟩ <;> rcases g2 with g2 | ⟨g2, g3⟩
    · exact Or.inl (h2.trans g2)
    · exact Or.inl (h2.trans_eq g2)
    · exact Or.inl (h2.trans_lt g2)
    · exact Or.inr ⟨h2.trans g2, h3.trans g3⟩

/-- FingerprintLocalization.find_k_nearest from src/FingerPrint2.py
(lines 43-46): build the list of (distance, coordinates) pairs, sort it
with the bare list.sort() (tuple order) and return the first k entries.
The Python slice distances[:k] never fails; for k larger than the list it
returns the whole list, exactly as List.take does. -/
def find_k_nearest (grid : List ReferenceLocation) (k : ℕ) (tm_rssi : RSSI) :
    List (ℚ × Pos2) :=
  ((grid.map fun cell => (rssi_difference cell.rssi_values tm_rssi, cell.coordinates)).insertionSort
    tupLe).take k

/-- FingerprintLocalization.compute_weights from src/FingerPrint2.py
(lines 48-51).  In the second Python list comprehension the name weights
still denotes the pre-normalization list while the comprehension runs, so
every entry is divided by the sum of the pre-normalization weights. -/
def compute_weights (k_nearest : List (ℚ × Pos2)) : List ℚ :=
  let weights := k_nearest.map fun p => if p.1 ≠ 0 then 1 / p.1 else 1
  weights.map fun w => w / weights.sum

/-- FingerprintLocalization.estimate_position from src/FingerPrint2.py
(lines 53-56): the weighted sums of the x and y coordinates over
zip(weights, k_nearest). -/
def estimate_position (k_nearest : List (ℚ × Pos2)) (weights : List ℚ) : Pos2 :=
  ((List.zipWith (fun w dc => w * dc.2.1) weights k_nearest).sum,
   (List.zipWith (fun w dc => w * dc.2.2) weights k_nearest).sum)

/-- The run_localization pipeline of src/FingerPrint2.py (lines 80-87):
find_k_nearest, then compute_weights, then estimate_position. -/
def localize (grid : List ReferenceLocation) (k : ℕ) (tm_rssi : RSSI) : Pos2 :=
  let k_nearest := find_k_nearest grid k tm_rssi
  estimate_position k_nearest (compute_weights k_nearest)

/-- The grid builder of src/FingerPrint2.py (lines 64-78): the source
loop appends ReferenceLocation(i, (x, y), rssi_values) with consecutive
ids starting from the given index. -/
def mkGrid (i : ℕ) : List (Pos2 × RSSI) → List ReferenceLocation
  | [] => []
  | pv :: rest => ⟨i, pv.1, pv.2⟩ :: mkGrid (i + 1) rest

end FingerPrint2

namespace OffOnFingerp

/-- Cellule from src/OffOnFingerp.py: an (x, y) position and a list of
RSSI values. -/
structure Cellule where
  position : Pos2
  rssi : RSSI

/-- RSSIComparator.rssi_difference from src/OffOnFingerp.py (lines 15-20),
textually the same computation as in src/FingerPrint2.py. -/
def rssi_difference (rssi1 rssi2 : RSSI) : ℚ :=
  ((List.range rssi1.length).map fun i => |rssi1.getD i 0 - rssi2.getD i 0|).sum

/-- The comparator of the key-based sort in src/OffOnFingerp.py (line 33):
sort(key=lambda x: x[0]) orders by the distance component only and is
stable, so ties keep the original record order. -/
abbrev distLe (a b : ℚ × Pos2) : Prop := a.1 ≤ b.1

instance : IsTotal (ℚ × Pos2) distLe := ⟨fun a b => le_total a.1 b.1⟩

instance : IsTrans (ℚ × Pos2) distLe := ⟨fun _ _ _ h g => h.trans g⟩

/-- FingerprintLocalization.find_k_nearest from src/OffOnFingerp.py
(lines 29-34): as in src/FingerPrint2.py but sorted by the distance key
only, with the stable sort keeping tied records in grid order. -/
def find_k_nearest (grid : List Cellule) (k : ℕ) (tm_rssi : RSSI) :
    List (ℚ × Pos2) :=
  ((grid.map fun cell => (rssi_difference cell.rssi tm_rssi, cell.position)).insertionSort
    distLe).take k

/-- FingerprintLocalization.compute_weights from src/OffOnFingerp.py
(lines 36-42), textually the same computation as in src/FingerPrint2.py. -/
def compute_weights (k_nearest : List (ℚ × Pos2)) : List ℚ :=
  let weights := k_nearest.map fun p => if p.1 ≠ 0 then 1 / p.1 else 1
  weights.map fun w => w / weights.sum

/-- FingerprintLocalization.estimate_position from src/OffOnFingerp.py
(lines 44-48). -/
def estimate_position (k_nearest : List (ℚ × Pos2)) (weights : List ℚ) : Pos2 :=
  ((List.zipWith (fun w dc => w * dc.2.1) weights k_nearest).sum,
   (List.zipWith (fun w dc => w * dc.2.2) weights k_nearest).sum)

/-- The run_localization pipeline of src/OffOnFingerp.py (lines 110-115). -/
def localize (grid : List Cellule) (k : ℕ) (tm_rssi : RSSI) : Pos2 :=
  let k_nearest := find_k_nearest grid k tm_rssi
  estimate_position k_nearest (compute_weights k_nearest)

/-- The grid builder of src/OffOnFingerp.py (lines 57-69): the source
builds its list of Cellule records directly from (position, rssi) pairs. -/
def mkGrid (g : List (Pos2 × RSSI)) : List Cellule :=
  g.map fun pv => ⟨pv.1, pv.2⟩

end OffOnFingerp

/-! Basic facts about the two rssi_difference functions. -/

theorem OffOn_rssi_difference_eq :
    OffOnFingerp.rssi_difference = FingerPrint2.rssi_difference := rfl

theorem FingerPrint2.rssi_difference_nil (w : RSSI) :
    FingerPrint2.rssi_difference [] w = 0 := rfl

theorem FingerPrint2.rssi_difference_cons (a b : ℚ) (v w : RSSI) :
    FingerPrint2.rssi_difference (a :: v) (b :: w) =
      |a - b| + FingerPrint2.rssi_difference v w := by
  unfold FingerPrint2.rssi_difference
  simp [List.range_succ_eq_map, List.map_map, Function.comp_def]

theorem FingerPrint2.rssi_difference_eq_l1dist (v w : RSSI)
    (h : v.length = w.length) :
    FingerPrint2.rssi_difference v w = l1dist v w := by
  induction v generalizing w with
  | nil => cases w <;> simp [FingerPrint2.rssi_difference_nil, l1dist]
  | cons a v ih =>
    cases w with
    | nil => simp at h
    | cons b w =>
      simp only [List.length_cons, Nat.add_right_cancel_iff] at h
      rw [FingerPrint2.rssi_difference_cons, ih w h]
      simp [l1dist]

theorem FingerPrint2.rssi_difference_nonneg (v w : RSSI) :
    0 ≤ FingerPrint2.rssi_difference v w := by
  apply List.sum_nonneg
  intro x hx
  rcases List.mem_map.1 hx with ⟨i, _, rfl⟩
  exact abs_nonneg _

theorem FingerPrint2.rssi_difference_self (v : RSSI) :
    FingerPrint2.rssi_difference v v = 0 := by
  induction v with
  | nil => rfl
  | cons a v ih => rw [FingerPrint2.rssi_difference_cons, ih] ; simp

theorem FingerPrint2.eq_of_rssi_difference_eq_zero (v w : RSSI)
    (h : v.length = w.length) (h0 : FingerPrint2.rssi_difference v w = 0) :
    v = w := by
  induction v generalizing w with
  | nil =>
    cases w with
    | nil => rfl
    | cons b w => simp at h
  | cons a v ih =>
    cases w with
    | nil => simp at h
    | cons b w =>
      simp only [List.length_cons, Nat.add_right_cancel_iff] at h
      rw [FingerPrint2.rssi_difference_cons] at h0
      have hn1 := FingerPrint2.rssi_difference_nonneg v w
      have hn2 := abs_nonneg (a - b)
      have h1 : |a - b| = 0 ∧ FingerPrint2.rssi_difference v w = 0 := by
        constructor <;> linarith
      have hab : a = b := by
        have := abs_eq_zero.1 h1.1
        linarith
      rw [hab, ih w h h1.2]

theorem FingerPrint2.map_mkGridFP (live : RSSI) (g : List (Pos2 × RSSI)) (i : ℕ) :
    ((FingerPrint2.mkGrid i g).map fun c =>
        (FingerPrint2.rssi_difference c.rssi_values live, c.coordinates)) =
      g.map fun pv => (FingerPrint2.rssi_difference pv.2 live, pv.1) := by
  induction g generalizing i with
  | nil => rfl
  | cons pv rest ih => simp [FingerPrint2.mkGrid, ih]

theorem FingerPrint2.length_mkGrid (g : List (Pos2 × RSSI)) (i : ℕ) :
    (FingerPrint2.mkGrid i g).length = g.length := by
  induction g generalizing i with
  | nil => rfl
  | cons pv rest ih => simp [FingerPrint2.mkGrid, ih]

theorem OffOnFingerp.map_mkGridOff (live : RSSI) (g : List (Pos2 × RSSI)) :
    ((OffOnFingerp.mkGrid g).map fun c =>
        (OffOnFingerp.rssi_difference c.rssi live, c.position)) =
      g.map fun pv => (OffOnFingerp.rssi_difference pv.2 live, pv.1) := by
  simp [OffOnFingerp.mkGrid, List.map_map, Function.comp_def]

/-! Claim C1: the weight computation. -/

/-- C1: for every nonempty k-nearest list with non-negative distances,
compute_weights assigns entry i the pre-normalization weight 1/d when the
distance d is nonzero and 1 when it is zero, divided by the sum of all
pre-normalization weights; the returned weights sum to 1; the two source
files share the same computation; and a zero-distance neighbour next to a
distance-1 neighbour receives weight 1/2, not a dominating weight. -/
theorem C1_compute_weights (kn : List (ℚ × Pos2)) (hne : kn ≠ [])
    (hd : ∀ p ∈ kn, 0 ≤ p.1) :
    (∀ i, i < kn.length →
      (FingerPrint2.compute_weights kn).getD i 0 =
        (if (kn.getD i (0, 0, 0)).1 ≠ 0 then 1 / (kn.getD i (0, 0, 0)).1 else 1) /
          (kn.map fun p => if p.1 ≠ 0 then 1 / p.1 else 1).sum) ∧
    (FingerPrint2.compute_weights kn).sum = 1 ∧
    OffOnFingerp.compute_weights = FingerPrint2.compute_weights ∧
    FingerPrint2.compute_weights [(0, (0, 0)), (1, (1, 1))] = [1/2, 1/2] := by
  have hpos : ∀ w ∈ kn.map fun p => if p.1 ≠ 0 then 1 / p.1 else 1, 0 < w := by
    intro w hw
    rcases List.mem_map.1 hw with ⟨p, hp, rfl⟩
    by_cases h0 : p.1 = 0
    · simp [h0]
    · have hlt : 0 < p.1 := lt_of_le_of_ne (hd p hp) (Ne.symm h0)
      simp only [h0, if_pos, ne_eq, not_false_eq_true]
      positivity
  have hSne : (kn.map fun p => if p.1 ≠ 0 then 1 / p.1 else 1) ≠ [] := by
    simpa [List.map_eq_nil_iff] using hne
  have hS : 0 < (kn.map fun p => if p.1 ≠ 0 then 1 / p.1 else 1).sum :=
    List.sum_pos _ hpos hSne
  refine ⟨?_, ?_, rfl, by norm_num [FingerPrint2.compute_weights]⟩
  · intro i hi
    have hi2 : i < (FingerPrint2.compute_weights kn).length := by
      simpa [FingerPrint2.compute_weights] using hi
    rw [List.getD_eq_getElem _ _ hi2, List.getD_eq_getElem _ _ hi]
    simp [FingerPrint2.compute_weights, List.getElem_map]
  · have key : ∀ (L : List ℚ) (c : ℚ), (L.map fun w => w / c).sum = L.sum / c := by
      intro L c
      induction L with
      | nil => simp
      | cons a L ih => simp [ih, add_div]
    simp only [FingerPrint2.compute_weights]
    rw [key]
    exact div_self (ne_of_gt hS)

/-- C1 witness: the theorem applied to the concrete two-neighbour list
with distances 0 and 2. -/
theorem C1_compute_weights_witness :
    (FingerPrint2.compute_weights [((0 : ℚ), ((0 : ℚ), (0 : ℚ))), (2, (4, 0))]).sum = 1 :=
  (C1_compute_weights [(0, (0, 0)), (2, (4, 0))] (by decide) (by decide)).2.1

/-! Claim C3: the k-nearest-neighbour search. -/

/-- C3: for every grid of reference records whose signal vectors match the
live vector in length and every k up to the record count, both source
files compute for each record the L1 distance between its signal vector
and the live vector, sort ascending by that distance, and return exactly
the first k entries of the sorted list. -/
theorem C3_find_k_nearest (g : List (Pos2 × RSSI)) (live : RSSI) (k : ℕ)
    (hk : k ≤ g.length) (hlen : ∀ r ∈ g, r.2.length = live.length) :
    ∃ s1 s2 : List (ℚ × Pos2),
      FingerPrint2.find_k_nearest (FingerPrint2.mkGrid 0 g) k live = s1.take k ∧
      s1.Perm (g.map fun pv => (l1dist pv.2 live, pv.1)) ∧
      s1.Sorted (fun a b => a.1 ≤ b.1) ∧
      (FingerPrint2.find_k_nearest (FingerPrint2.mkGrid 0 g) k live).length = k ∧
      OffOnFingerp.find_k_nearest (OffOnFingerp.mkGrid g) k live = s2.take k ∧
      s2.Perm (g.map fun pv => (l1dist pv.2 live, pv.1)) ∧
      s2.Sorted (fun a b => a.1 ≤ b.1) ∧
      (OffOnFingerp.find_k_nearest (OffOnFingerp.mkGrid g) k live).length = k := by
  have hmap : (g.map fun pv => (FingerPrint2.rssi_difference pv.2 live, pv.1)) =
      g.map fun pv => (l1dist pv.2 live, pv.1) := by
    apply List.map_congr_left
    intro pv hpv
    rw [FingerPrint2.rssi_difference_eq_l1dist _ _ (hlen pv hpv)]
  have hfp : FingerPrint2.find_k_nearest (FingerPrint2.mkGrid 0 g) k live =
      ((g.map fun pv => (l1dist pv.2 live, pv.1)).insertionSort FingerPrint2.tupLe).take k := by
    rw [FingerPrint2.find_k_nearest, FingerPrint2.map_mkGridFP, hmap]
  have hoff : OffOnFingerp.find_k_nearest (OffOnFingerp.mkGrid g) k live =
      ((g.map fun pv => (l1dist pv.2 live, pv.1)).insertionSort OffOnFingerp.distLe).take k := by
    rw [OffOnFingerp.find_k_nearest, OffOnFingerp.map_mkGridOff]
    rw [OffOn_rssi_difference_eq, hmap]
  refine ⟨(g.map fun pv => (l1dist pv.2 live, pv.1)).insertionSort FingerPrint2.tupLe,
      (g.map fun pv => (l1dist pv.2 live, pv.1)).insertionSort OffOnFingerp.distLe,
      hfp, List.perm_insertionSort _ _, ?_, ?_, hoff, List.perm_insertionSort _ _, ?_, ?_⟩
  · refine (List.sorted_insertionSort FingerPrint2.tupLe _).imp ?_
    intro a b hab
    rcases hab with h | ⟨h, _⟩
    · exact le_of_lt h
    · exact le_of_eq h
  · rw [hfp]
    simp only [List.length_take, List.length_insertionSort, List.length_map]
    omega
  · exact List.sorted_insertionSort OffOnFingerp.distLe _
  · rw [hoff]
    simp only [List.length_take, List.length_insertionSort, List.length_map]
    omega

/-- C3 witness: the theorem applied to a concrete two-record grid with
k = 1; the returned neighbour list has exactly one entry. -/
theorem C3_find_k_nearest_witness :
    (FingerPrint2.find_k_nearest
        (FingerPrint2.mkGrid 0 [(((0 : ℚ), (0 : ℚ)), [(0 : ℚ)]), ((1, 1), [5])]) 1
        [0]).length = 1 := by
  obtain ⟨s1, s2, h⟩ :=
    C3_find_k_nearest [((0, 0), [0]), ((1, 1), [5])] [0] 1 (by decide) (by decide)
  exact h.2.2.2.1

/-! Claim C4: exact fingerprint match with k = 1. -/

/-- Helper: the pipeline tail applied to a single zero-distance neighbour
returns its position exactly: the pre-normalization weight is 1, the
normalized weight is 1, and 1 times the coordinates is the position. -/
theorem weight_one_pipeline (p : Pos2) :
    FingerPrint2.estimate_position [(0, p)] (FingerPrint2.compute_weights [(0, p)]) = p := by
  norm_num [FingerPrint2.compute_weights, FingerPrint2.estimate_position]

/-- Helper: for any total transitive comparator that refines the distance
order, the sorted distance list of a grid containing an exact match starts
with a pair (0, r.1) for some record r whose vector equals the live one. -/
theorem sorted_head_matching (le : ℚ × Pos2 → ℚ × Pos2 → Prop) [DecidableRel le]
    [IsTotal (ℚ × Pos2) le] [IsTrans (ℚ × Pos2) le]
    (hle : ∀ a b : ℚ × Pos2, le a b → a.1 ≤ b.1)
    (g : List (Pos2 × RSSI)) (live : RSSI) (r0 : Pos2 × RSSI)
    (hmem : r0 ∈ g) (hvec : r0.2 = live)
    (hlen : ∀ r ∈ g, r.2.length = live.length) :
    ∃ r ∈ g, r.2 = live ∧ ∃ t,
      ((g.map fun pv => (FingerPrint2.rssi_difference pv.2 live, pv.1)).insertionSort le) =
        ((0 : ℚ), r.1) :: t := by
  have hperm := List.perm_insertionSort le
    (g.map fun pv => (FingerPrint2.rssi_difference pv.2 live, pv.1))
  have hx : ((0 : ℚ), r0.1) ∈
      g.map fun pv => (FingerPrint2.rssi_difference pv.2 live, pv.1) := by
    refine List.mem_map.2 ⟨r0, hmem, ?_⟩
    rw [hvec, FingerPrint2.rssi_difference_self]
  cases hs : (g.map fun pv =>
      (FingerPrint2.rssi_difference pv.2 live, pv.1)).insertionSort le with
  | nil =>
    exfalso
    rw [hs] at hperm
    have hnil : (g.map fun pv => (FingerPrint2.rssi_difference pv.2 live, pv.1)) = [] :=
      (List.Perm.nil_eq hperm).symm
    rw [hnil] at hx
    exact List.not_mem_nil _ hx
  | cons h t =>
    rw [hs] at hperm
    have hin : ((0 : ℚ), r0.1) ∈ h :: t := hperm.mem_iff.2 hx
    have hh_mem : h ∈ g.map fun pv => (FingerPrint2.rssi_difference pv.2 live, pv.1) :=
      hperm.mem_iff.1 (List.mem_cons_self h t)
    obtain ⟨pv, hpv, hfe⟩ := List.mem_map.1 hh_mem
    have hh1 : 0 ≤ h.1 := by
      rw [← hfe]
      exact FingerPrint2.rssi_difference_nonneg _ _
    have hle0 : h.1 ≤ 0 := by
      rcases List.mem_cons.1 hin with heq | hint
      · rw [← heq]
      · have hsorted := List.sorted_insertionSort le
          (g.map fun pv => (FingerPrint2.rssi_difference pv.2 live, pv.1))
        rw [hs] at hsorted
        exact hle _ _ ((List.sorted_cons.1 hsorted).1 _ hint)
    have hzero : h.1 = 0 := le_antisymm hle0 hh1
    have hd0 : FingerPrint2.rssi_difference pv.2 live = 0 := by
      have : ((FingerPrint2.rssi_difference pv.2 live, pv.1) : ℚ × Pos2).1 = 0 := by
        rw [hfe, hzero]
      simpa using this
    have hveq : pv.2 = live :=
      FingerPrint2.eq_of_rssi_difference_eq_zero _ _ (hlen pv hpv) hd0
    refine ⟨pv, hpv, hveq, t, ?_⟩
    rw [← hfe, hd0]

/-- C4 counterexample: with two records carrying the same signal vector
the claim fails as stated.  The grid holds the vector [0] at (1, 1) and
at (0, 0) and the live vector is [0]; with k = 1 the FingerPrint2
pipeline returns (0, 0) because the bare tuple sort breaks the distance
tie by comparing positions, so the estimate differs from the position
(1, 1) of a record whose vector equals the live vector; symmetrically the
OffOnFingerp pipeline keeps grid order on ties and returns (1, 1), which
differs from the matching record at (0, 0). -/
theorem C4_counterexample :
    ((((1 : ℚ), (1 : ℚ)), [(0 : ℚ)]) : Pos2 × RSSI) ∈
        [(((1 : ℚ), (1 : ℚ)), [(0 : ℚ)]), ((0, 0), [0])] ∧
    FingerPrint2.localize
        (FingerPrint2.mkGrid 0 [(((1 : ℚ), (1 : ℚ)), [(0 : ℚ)]), ((0, 0), [0])]) 1 [0] ≠
      (1, 1) ∧
    ((((0 : ℚ), (0 : ℚ)), [(0 : ℚ)]) : Pos2 × RSSI) ∈
        [(((1 : ℚ), (1 : ℚ)), [(0 : ℚ)]), ((0, 0), [0])] ∧
    OffOnFingerp.localize
        (OffOnFingerp.mkGrid [(((1 : ℚ), (1 : ℚ)), [(0 : ℚ)]), ((0, 0), [0])]) 1 [0] ≠
      (0, 0) := by
  have h1 : FingerPrint2.localize
      (FingerPrint2.mkGrid 0 [(((1 : ℚ), (1 : ℚ)), [(0 : ℚ)]), ((0, 0), [0])]) 1 [0] =
      (0, 0) := by
    norm_num [FingerPrint2.localize, FingerPrint2.find_k_nearest, FingerPrint2.mkGrid,
      FingerPrint2.compute_weights, FingerPrint2.estimate_position,
      FingerPrint2.rssi_difference, FingerPrint2.tupLe, List.insertionSort,
      List.orderedInsert, List.range_succ]
  have h2 : OffOnFingerp.localize
      (OffOnFingerp.mkGrid [(((1 : ℚ), (1 : ℚ)), [(0 : ℚ)]), ((0, 0), [0])]) 1 [0] =
      (1, 1) := by
    norm_num [OffOnFingerp.localize, OffOnFingerp.find_k_nearest, OffOnFingerp.mkGrid,
      OffOnFingerp.compute_weights, OffOnFingerp.estimate_position,
      OffOnFingerp.rssi_difference, OffOnFingerp.distLe, List.insertionSort,
      List.orderedInsert, List.range_succ]
  refine ⟨by decide, ?_, by decide, ?_⟩
  · rw [h1]
    norm_num
  · rw [h2]
    norm_num

/-- C4 amended: if the live vector equals the vector of some record and
k = 1, each pipeline returns the position of a record whose vector equals
the live vector; when all matching records share one position, that
position is returned exactly. -/
theorem C4_amended (g : List (Pos2 × RSSI)) (live : RSSI) (r0 : Pos2 × RSSI)
    (hmem : r0 ∈ g) (hvec : r0.2 = live)
    (hlen : ∀ r ∈ g, r.2.length = live.length) :
    (∃ r ∈ g, r.2 = live ∧
       FingerPrint2.localize (FingerPrint2.mkGrid 0 g) 1 live = r.1) ∧
    (∃ r ∈ g, r.2 = live ∧
       OffOnFingerp.localize (OffOnFingerp.mkGrid g) 1 live = r.1) ∧
    ((∀ r ∈ g, r.2 = live → r.1 = r0.1) →
       FingerPrint2.localize (FingerPrint2.mkGrid 0 g) 1 live = r0.1 ∧
       OffOnFingerp.localize (OffOnFingerp.mkGrid g) 1 live = r0.1) := by
  obtain ⟨r1, hr1g, hr1v, t1, hs1⟩ :=
    sorted_head_matching FingerPrint2.tupLe
      (by
        intro a b hab
        rcases hab with h | ⟨h, _⟩
        · exact le_of_lt h
        · exact le_of_eq h)
      g live r0 hmem hvec hlen
  obtain ⟨r2, hr2g, hr2v, t2, hs2⟩ :=
    sorted_head_matching OffOnFingerp.distLe (fun _ _ h => h) g live r0 hmem hvec hlen
  have e1 : FingerPrint2.localize (FingerPrint2.mkGrid 0 g) 1 live = r1.1 := by
    simp only [FingerPrint2.localize, FingerPrint2.find_k_nearest]
    rw [FingerPrint2.map_mkGridFP, hs1, List.take_succ_cons, List.take_zero]
    exact weight_one_pipeline r1.1
  have e2 : OffOnFingerp.localize (OffOnFingerp.mkGrid g) 1 live = r2.1 := by
    simp only [OffOnFingerp.localize, OffOnFingerp.find_k_nearest]
    rw [OffOnFingerp.map_mkGridOff, OffOn_rssi_difference_eq, hs2, List.take_succ_cons,
      List.take_zero]
    exact weight_one_pipeline r2.1
  refine ⟨⟨r1, hr1g, hr1v, e1⟩, ⟨r2, hr2g, hr2v, e2⟩, ?_⟩
  intro huniq
  exact ⟨by rw [e1, huniq r1 hr1g hr1v], by rw [e2, huniq r2 hr2g hr2v]⟩

/-- C4 witness: a single-record grid whose vector equals the live vector;
both pipelines return its position (2, 3). -/
theorem C4_amended_witness :
    FingerPrint2.localize
        (FingerPrint2.mkGrid 0 [(((2 : ℚ), (3 : ℚ)), [(7 : ℚ)])]) 1 [7] = (2, 3) := by
  obtain ⟨h1, h2, h3⟩ :=
    C4_amended [((2, 3), [7])] [7] ((2, 3), [7]) (by decide) (by decide) (by decide)
  exact (h3 (by decide)).1

/-! Claim C10: equivalence of the two fingerprint pipelines. -/

/-- C10 counterexample: on a distance tie the two pipelines disagree.
Both records carry the vector [0] and the live vector is [0]; with k = 1
the FingerPrint2 tuple sort returns the record at (0, 0) while the stable
distance-only sort of OffOnFingerp returns the record at (5, 5). -/
theorem C10_counterexample :
    FingerPrint2.localize
        (FingerPrint2.mkGrid 0 [(((5 : ℚ), (5 : ℚ)), [(0 : ℚ)]), ((0, 0), [0])]) 1 [0] ≠
      OffOnFingerp.localize
        (OffOnFingerp.mkGrid [(((5 : ℚ), (5 : ℚ)), [(0 : ℚ)]), ((0, 0), [0])]) 1 [0] := by
  have h1 : FingerPrint2.localize
      (FingerPrint2.mkGrid 0 [(((5 : ℚ), (5 : ℚ)), [(0 : ℚ)]), ((0, 0), [0])]) 1 [0] =
      (0, 0) := by
    norm_num [FingerPrint2.localize, FingerPrint2.find_k_nearest, FingerPrint2.mkGrid,
      FingerPrint2.compute_weights, FingerPrint2.estimate_position,
      FingerPrint2.rssi_difference, FingerPrint2.tupLe, List.insertionSort,
      List.orderedInsert, List.range_succ]
  have h2 : OffOnFingerp.localize
      (OffOnFingerp.mkGrid [(((5 : ℚ), (5 : ℚ)), [(0 : ℚ)]), ((0, 0), [0])]) 1 [0] =
      (5, 5) := by
    norm_num [OffOnFingerp.localize, OffOnFingerp.find_k_nearest, OffOnFingerp.mkGrid,
      OffOnFingerp.compute_weights, OffOnFingerp.estimate_position,
      OffOnFingerp.rssi_difference, OffOnFingerp.distLe, List.insertionSort,
      List.orderedInsert, List.range_succ]
  rw [h1, h2]
  norm_num [Prod.ext_iff]

/-- C10 amended: the two pipelines agree on every grid, live vector and k
for which the L1 distances of the records to the live vector are pairwise
distinct; only distance ties can separate them. -/
theorem C10_amended (g : List (Pos2 × RSSI)) (live : RSSI) (k : ℕ)
    (hdist : (g.map fun pv => FingerPrint2.rssi_difference pv.2 live).Pairwise (· ≠ ·)) :
    FingerPrint2.localize (FingerPrint2.mkGrid 0 g) k live =
      OffOnFingerp.localize (OffOnFingerp.mkGrid g) k live := by
  have hkeys : (g.map fun pv =>
      (FingerPrint2.rssi_difference pv.2 live, pv.1)).Pairwise
        (fun a b => a.1 ≠ b.1) := by
    rw [List.pairwise_map]
    rw [List.pairwise_map] at hdist
    exact hdist
  have keys1 : ((g.map fun pv =>
      (FingerPrint2.rssi_difference pv.2 live, pv.1)).insertionSort
        FingerPrint2.tupLe).Pairwise (fun a b => a.1 ≠ b.1) :=
    ((List.perm_insertionSort _ _).pairwise_iff (fun h => h.symm)).2 hkeys
  have keys2 : ((g.map fun pv =>
      (FingerPrint2.rssi_difference pv.2 live, pv.1)).insertionSort
        OffOnFingerp.distLe).Pairwise (fun a b => a.1 ≠ b.1) :=
    ((List.perm_insertionSort _ _).pairwise_iff (fun h => h.symm)).2 hkeys
  have strict1 : ((g.map fun pv =>
      (FingerPrint2.rssi_difference pv.2 live, pv.1)).insertionSort
        FingerPrint2.tupLe).Pairwise (fun a b => a.1 < b.1) := by
    refine ((List.sorted_insertionSort FingerPrint2.tupLe _).and keys1).imp ?_
    rintro a b ⟨hab, hne⟩
    rcases hab with h | ⟨h, _⟩
    · exact h
    · exact absurd h hne
  have strict2 : ((g.map fun pv =>
      (FingerPrint2.rssi_difference pv.2 live, pv.1)).insertionSort
        OffOnFingerp.distLe).Pairwise (fun a b => a.1 < b.1) := by
    refine ((List.sorted_insertionSort OffOnFingerp.distLe _).and keys2).imp ?_
    rintro a b ⟨hab, hne⟩
    exact lt_of_le_of_ne hab hne
  haveI : IsAntisymm (ℚ × Pos2) (fun a b => a.1 < b.1) :=
    ⟨fun a b h1 h2 => absurd (h1.trans h2) (lt_irrefl _)⟩
  have heq : ((g.map fun pv =>
      (FingerPrint2.rssi_difference pv.2 live, pv.1)).insertionSort FingerPrint2.tupLe) =
      ((g.map fun pv =>
        (FingerPrint2.rssi_difference pv.2 live, pv.1)).insertionSort OffOnFingerp.distLe) :=
    List.eq_of_perm_of_sorted
      ((List.perm_insertionSort _ _).trans (List.perm_insertionSort _ _).symm)
      strict1 strict2
  simp only [FingerPrint2.localize, FingerPrint2.find_k_nearest,
    OffOnFingerp.localize, OffOnFingerp.find_k_nearest]
  rw [FingerPrint2.map_mkGridFP, OffOnFingerp.map_mkGridOff, OffOn_rssi_difference_eq, heq]
  rfl

/-- C10 witness: a grid whose two records lie at distances 0 and 5 from
the live vector; both pipelines return (0, 0). -/
theorem C10_amended_witness :
    FingerPrint2.localize
        (FingerPrint2.mkGrid 0 [(((0 : ℚ), (0 : ℚ)), [(0 : ℚ)]), ((1, 1), [5])]) 1 [0] =
      OffOnFingerp.localize
        (OffOnFingerp.mkGrid [(((0 : ℚ), (0 : ℚ)), [(0 : ℚ)]), ((1, 1), [5])]) 1 [0] :=
  C10_amended [((0, 0), [0]), ((1, 1), [5])] [0] 1
    (by simp [FingerPrint2.rssi_difference, List.range_succ])

namespace Tp1

/-- GeometryError: error taxonomy of section 7 of the specification.  No
such error class exists anywhere in the source; the error channel below
only expresses that the Python method could in principle raise, so that
the absence of any raise is a provable statement. -/
inductive GeometryError where
  | illConditioned : GeometryError
  | nonConvergence : GeometryError
deriving DecidableEq

/-- The componentwise sum underlying np.mean(points, axis=0) in
NLateration.estimate_location of src/tp1.py (line 64): numpy reduces the
point array along axis 0 by addition before dividing by the count. -/
def vecSum (pts : List Point3) : Point3 :=
  pts.foldl (fun acc p => (acc.1 + p.1, acc.2.1 + p.2.1, acc.2.2 + p.2.2)) (0, 0, 0)

/-- Embedding of np.mean(points, axis=0): componentwise sum divided by
the number of points. -/
def npMeanAxis0 (pts : List Point3) : Point3 :=
  ((vecSum pts).1 / pts.length, (vecSum pts).2.1 / pts.length,
   (vecSum pts).2.2 / pts.length)

/-- NLateration.estimate_location from src/tp1.py (lines 59-70).  The
external scipy.optimize.least_squares call is modelled as the solver
parameter, receiving the emitter positions, the measured distances and
the start point x0 computed by the method; the method unconditionally
wraps the solver result in a Position, contains no geometry check and no
raise statement, hence always returns Except.ok. -/
def estimate_location (solver : List Point3 → List ℚ → Point3 → Point3)
    (points : List Point3) (distances : List ℚ) : Except GeometryError Point3 :=
  Except.ok (solver points distances (npMeanAxis0 points))

/-- Modelled from the spec: the centroid of the anchor positions, the
componentwise mean, as named in sections 2 and 4.1 of the specification. -/
def centroid (pts : List Point3) : Point3 :=
  ((pts.map fun p => p.1).sum / pts.length,
   (pts.map fun p => p.2.1).sum / pts.length,
   (pts.map fun p => p.2.2).sum / pts.length)

/-- The numpy componentwise fold equals the componentwise list sums. -/
theorem vecSum_eq (pts : List Point3) :
    vecSum pts = ((pts.map fun p => p.1).sum, (pts.map fun p => p.2.1).sum,
      (pts.map fun p => p.2.2).sum) := by
  have aux : ∀ (l : List Point3) (a : Point3),
      l.foldl (fun acc p => (acc.1 + p.1, acc.2.1 + p.2.1, acc.2.2 + p.2.2)) a =
        (a.1 + (l.map fun p => p.1).sum, a.2.1 + (l.map fun p => p.2.1).sum,
         a.2.2 + (l.map fun p => p.2.2).sum) := by
    intro l
    induction l with
    | nil => intro a; simp
    | cons p l ih =>
      intro a
      simp only [List.foldl_cons, ih, List.map_cons, List.sum_cons, Prod.mk.injEq]
      refine ⟨by ring, by ring, by ring⟩
  rw [vecSum, aux]
  simp

end Tp1

/-! Claim C6: the default initial guess of the multilaterator. -/

/-- C6: the method computes its start point as np.mean(points, axis=0)
and hands exactly that point to the least-squares routine; the numpy mean
equals the centroid, the componentwise mean of the anchor positions.  The
caller of NLateration.estimate_location cannot supply a guess at all, so
every call starts from the centroid. -/
theorem C6_initial_centroid (solver : List Point3 → List ℚ → Point3 → Point3)
    (points : List Point3) (distances : List ℚ) :
    Tp1.npMeanAxis0 points = Tp1.centroid points ∧
    Tp1.estimate_location solver points distances =
      Except.ok (solver points distances (Tp1.centroid points)) := by
  have h : Tp1.npMeanAxis0 points = Tp1.centroid points := by
    rw [Tp1.npMeanAxis0, Tp1.centroid, Tp1.vecSum_eq]
  exact ⟨h, by rw [Tp1.estimate_location, h]⟩

/-! Claim C7: no ill-conditioned-geometry failure exists. -/

/-- C7 counterexample: three exactly collinear anchors, a degenerate
configuration, yet estimate_location silently returns a point estimate
(the solver stand-in returns the start point, the centroid (1, 0, 0));
no IllConditionedGeometryError is reported, and none exists in the code. -/
theorem C7_counterexample :
    Tp1.estimate_location (fun _ _ x0 => x0)
        [((0 : ℚ), (0 : ℚ), (0 : ℚ)), (1, 0, 0), (2, 0, 0)] [1, 1, 1] =
      Except.ok ((1 : ℚ), (0 : ℚ), (0 : ℚ)) := by
  norm_num [Tp1.estimate_location, Tp1.npMeanAxis0, Tp1.vecSum]

/-- C7 amended: estimate_location performs no conditioning or rank check
of the anchor geometry: for every solver behaviour, every anchor list
(degenerate ones included) and every distance list it returns Except.ok
of the solver result started at the numpy mean, and never an error. -/
theorem C7_amended (solver : List Point3 → List ℚ → Point3 → Point3)
    (points : List Point3) (distances : List ℚ) :
    Tp1.estimate_location solver points distances =
      Except.ok (solver points distances (Tp1.npMeanAxis0 points)) ∧
    ∀ e : Tp1.GeometryError,
      Tp1.estimate_location solver points distances ≠ Except.error e := by
  refine ⟨rfl, ?_⟩
  intro e h
  exact Except.noConfusion h

/-! Claim C5: input validation. -/

/-- C5 counterexample: no ValidationError exists in the code.  With a
two-record grid and k = 3 the FingerPrint2 search silently clamps and
returns both records instead of rejecting; with k = 0 it returns the
empty list; and the multilaterator accepts the negative measured
distance -3 and still returns a point estimate. -/
theorem C5_counterexample :
    (FingerPrint2.find_k_nearest
        (FingerPrint2.mkGrid 0 [(((0 : ℚ), (0 : ℚ)), [(0 : ℚ)]), ((1, 1), [5])]) 3
        [0]).length = 2 ∧
    FingerPrint2.find_k_nearest
        (FingerPrint2.mkGrid 0 [(((0 : ℚ), (0 : ℚ)), [(0 : ℚ)]), ((1, 1), [5])]) 0 [0] =
      [] ∧
    Tp1.estimate_location (fun _ _ x0 => x0)
        [((0 : ℚ), (0 : ℚ), (0 : ℚ)), (4, 0, 0), (4, 5, 5), (3, 3, 3)] [-3, 2, 4, 2] =
      Except.ok ((11 / 4 : ℚ), (2 : ℚ), (2 : ℚ)) := by
  refine ⟨?_, ?_, ?_⟩
  · norm_num [FingerPrint2.find_k_nearest, FingerPrint2.mkGrid,
      FingerPrint2.rssi_difference, FingerPrint2.tupLe, List.insertionSort,
      List.orderedInsert, List.range_succ]
  · simp [FingerPrint2.find_k_nearest]
  · norm_num [Tp1.estimate_location, Tp1.npMeanAxis0, Tp1.vecSum]

/-- C5 amended: the solvers perform no input validation.  For every grid,
k and live vector, find_k_nearest returns min k n records where n is the
record count (so k larger than n is silently clamped and k = 0 yields no
neighbours, the pipeline then returning (0, 0)), and the multilaterator
accepts every distance list, negative entries included, always returning
a point estimate; a signal-vector length mismatch is an unhandled Python
IndexError, not a ValidationError. -/
theorem C5_amended (g : List (Pos2 × RSSI)) (k : ℕ) (live : RSSI)
    (solver : List Point3 → List ℚ → Point3 → Point3)
    (points : List Point3) (distances : List ℚ) :
    (FingerPrint2.find_k_nearest (FingerPrint2.mkGrid 0 g) k live).length =
      min k g.length ∧
    (OffOnFingerp.find_k_nearest (OffOnFingerp.mkGrid g) k live).length =
      min k g.length ∧
    FingerPrint2.localize (FingerPrint2.mkGrid 0 g) 0 live = (0, 0) ∧
    Tp1.estimate_location solver points distances =
      Except.ok (solver points distances (Tp1.npMeanAxis0 points)) := by
  refine ⟨?_, ?_, ?_, rfl⟩
  · simp [FingerPrint2.find_k_nearest, List.length_take, FingerPrint2.length_mkGrid]
  · simp [OffOnFingerp.find_k_nearest, List.length_take, OffOnFingerp.mkGrid]
  · simp [FingerPrint2.localize, FingerPrint2.find_k_nearest,
      FingerPrint2.compute_weights, FingerPrint2.estimate_position]

/-! Claim C9: the solvers neither mutate their inputs nor keep state.
The Python objects are made explicit: each method becomes a state
transformer receiving the object state (the fields the constructor
stored on self) and returning its result together with the state after
the call.  Every statement of the source that touches the stored data is
reflected: find_k_nearest builds a fresh local list from self.grid,
sorts that local list in place and returns a slice of it; the
NLateration constructor copies its arguments into fresh numpy arrays;
no method of either class assigns to a field or writes into a stored
list, so each transformer returns the state it received. -/

namespace FingerPrint2

/-- The FingerprintLocalization object of src/FingerPrint2.py: the
constructor (lines 39-41) stores the grid and k on self. -/
structure LocalizationState where
  grid : List ReferenceLocation
  k : ℕ

/-- find_k_nearest of src/FingerPrint2.py as a state transformer: it
reads self.grid and self.k, sorts only its fresh local list, and leaves
the object state unchanged. -/
def find_k_nearestS (s : LocalizationState) (tm_rssi : RSSI) :
    List (ℚ × Pos2) × LocalizationState :=
  let distances := s.grid.map fun cell =>
    (rssi_difference cell.rssi_values tm_rssi, cell.coordinates)
  let distances := distances.insertionSort tupLe
  (distances.take s.k, s)

/-- compute_weights as a state transformer: it reads no field and builds
only fresh lists. -/
def compute_weightsS (s : LocalizationState) (k_nearest : List (ℚ × Pos2)) :
    List ℚ × LocalizationState :=
  (compute_weights k_nearest, s)

/-- estimate_position as a state transformer: it reads no field. -/
def estimate_positionS (s : LocalizationState) (k_nearest : List (ℚ × Pos2))
    (weights : List ℚ) : Pos2 × LocalizationState :=
  (estimate_position k_nearest weights, s)

/-- The run_localization pipeline of src/FingerPrint2.py threading the
object state through the three method calls. -/
def run_localizationS (s : LocalizationState) (tm_rssi : RSSI) :
    Pos2 × LocalizationState :=
  let r1 := find_k_nearestS s tm_rssi
  let r2 := compute_weightsS r1.2 r1.1
  estimate_positionS r2.2 r1.1 r2.1

end FingerPrint2

namespace Tp1

/-- The NLateration object of src/tp1.py: the constructor (lines 50-57)
copies the argument lists into fresh arrays stored on self. -/
structure NLatState where
  points : List Point3
  distances : List ℚ

/-- estimate_location as a state transformer over the stored anchor data:
the method only reads self.points and self.distances. -/
def estimate_locationS (solver : List Point3 → List ℚ → Point3 → Point3)
    (s : NLatState) : Except GeometryError Point3 × NLatState :=
  (estimate_location solver s.points s.distances, s)

end Tp1

/-- C9: no solver call mutates its inputs or retains state between calls:
each state transformer returns the object state it received, and the
value it returns is the one computed by the pure pipeline over the same
stored grid, k and anchor data. -/
theorem C9_no_mutation (s : FingerPrint2.LocalizationState) (tm : RSSI)
    (kn : List (ℚ × Pos2)) (w : List ℚ)
    (solver : List Point3 → List ℚ → Point3 → Point3) (ns : Tp1.NLatState) :
    (FingerPrint2.find_k_nearestS s tm).2 = s ∧
    (FingerPrint2.compute_weightsS s kn).2 = s ∧
    (FingerPrint2.estimate_positionS s kn w).2 = s ∧
    (FingerPrint2.run_localizationS s tm).2 = s ∧
    (FingerPrint2.run_localizationS s tm).1 = FingerPrint2.localize s.grid s.k tm ∧
    (Tp1.estimate_locationS solver ns).2 = ns ∧
    (Tp1.estimate_locationS solver ns).1 =
      Tp1.estimate_location solver ns.points ns.distances :=
  ⟨rfl, rfl, rfl, rfl, rfl, rfl, rfl⟩

/-! Claim C8: the grid-search localizer.  No grid-search code is present
under src/, although the specification devotes section 4.2 to it; the
component is therefore modelled from the spec and the claim is settled
against that model. -/

namespace GridSearch

/-- Modelled from the spec: the axis-aligned bounding box of section 4.2. -/
structure Box where
  xmin : ℚ
  xmax : ℚ
  ymin : ℚ
  ymax : ℚ
  zmin : ℚ
  zmax : ℚ

/-- Modelled from the spec: the samples of one axis at the given step,
lo, lo + step, ..., up to the largest multiple not beyond hi.  An axis of
zero extent still yields the single sample lo, as section 4.2 requires. -/
def axisPoints (lo hi step : ℚ) : List ℚ :=
  (List.range (⌊(hi - lo) / step⌋₊ + 1)).map fun i : ℕ => lo + (i : ℚ) * step

/-- Modelled from the spec: every lattice point at the given step inside
the box, in scan order with x outermost, then y, then z innermost. -/
def latticePoints (b : Box) (step : ℚ) : List Point3 :=
  (axisPoints b.xmin b.xmax step).flatMap fun x =>
    (axisPoints b.ymin b.ymax step).flatMap fun y =>
      (axisPoints b.zmin b.zmax step).map fun z => (x, y, z)

/-- Modelled from the spec: the summed absolute residual of section 4.2,
d(x) = sum over anchors of the absolute difference between the Euclidean
distance from x to the anchor position and the measured distance. -/
noncomputable def dGrid (anchors : List (Point3 × ℚ)) (p : Point3) : ℝ :=
  (anchors.map fun a =>
    |Real.sqrt (((p.1 - a.1.1 : ℚ) : ℝ) ^ 2 + ((p.2.1 - a.1.2.1 : ℚ) : ℝ) ^ 2 +
        ((p.2.2 - a.1.2.2 : ℚ) : ℝ) ^ 2) - ((a.2 : ℚ) : ℝ)|).sum

/-- Modelled from the spec: the scan keeping the first point that
achieves the running minimum; only a strictly smaller error replaces the
current best, so ties keep the earlier point in scan order. -/
def bestOf {E : Type} [LinearOrder E] (err : Point3 → E) : Point3 → List Point3 → Point3
  | p, [] => p
  | p, q :: qs => bestOf err (if err q < err p then q else p) qs

/-- Modelled from the spec: the error field, one value per sampled point
plus the tracked global minimum and maximum raw error of the scan. -/
structure ErrorField (E : Type) where
  values : List E
  emin : E
  emax : E

/-- Modelled from the spec: the grid-search engine: enumerate the lattice,
take the estimate at the first minimizing point of the scan, record a
value per sampled point and track the global extrema.  It returns none
only for an empty lattice, which the lattice construction never yields. -/
def gridSearch {E : Type} [LinearOrder E] (err : Point3 → E) (b : Box) (step : ℚ) :
    Option ((Point3 × E) × ErrorField E) :=
  match latticePoints b step with
  | [] => none
  | p :: ps =>
    some ((bestOf err p ps, err (bestOf err p ps)),
      ⟨(p :: ps).map err, (ps.map err).foldl min (err p), (ps.map err).foldl max (err p)⟩)

/-- Modelled from the spec: GridSearchLocalizer, the engine run on the
summed absolute residual of the given anchors. -/
noncomputable def gridSearchLocalizer (anchors : List (Point3 × ℚ)) (b : Box) (step : ℚ) :
    Option ((Point3 × ℝ) × ErrorField ℝ) :=
  gridSearch (dGrid anchors) b step

/-- The scan result is the start point or a scanned point. -/
theorem bestOf_eq_or_mem {E : Type} [LinearOrder E] (err : Point3 → E) :
    ∀ (l : List Point3) (p : Point3), bestOf err p l = p ∨ bestOf err p l ∈ l := by
  intro l
  induction l with
  | nil => intro p; exact Or.inl rfl
  | cons q qs ih =>
    intro p
    simp only [bestOf]
    by_cases hc : err q < err p
    · rw [if_pos hc]
      rcases ih q with h | h
      · exact Or.inr (by rw [h]; exact List.mem_cons_self q qs)
      · exact Or.inr (List.mem_cons_of_mem q h)
    · rw [if_neg hc]
      rcases ih p with h | h
      · exact Or.inl h
      · exact Or.inr (List.mem_cons_of_mem q h)

/-- The scan result minimizes the error over the start point and the
scanned points. -/
theorem bestOf_le_all {E : Type} [LinearOrder E] (err : Point3 → E) :
    ∀ (l : List Point3) (p : Point3),
      err (bestOf err p l) ≤ err p ∧ ∀ q ∈ l, err (bestOf err p l) ≤ err q := by
  intro l
  induction l with
  | nil =>
    intro p
    exact ⟨le_refl _, by intro q hq; exact absurd hq (List.not_mem_nil q)⟩
  | cons q qs ih =>
    intro p
    simp only [bestOf]
    by_cases hc : err q < err p
    · rw [if_pos hc]
      obtain ⟨h1, h2⟩ := ih q
      refine ⟨h1.trans (le_of_lt hc), ?_⟩
      intro r hr
      rcases List.mem_cons.1 hr with rfl | hr
      · exact h1
      · exact h2 r hr
    · rw [if_neg hc]
      obtain ⟨h1, h2⟩ := ih p
      refine ⟨h1, ?_⟩
      intro r hr
      rcases List.mem_cons.1 hr with rfl | hr
      · exact h1.trans (not_lt.1 hc)
      · exact h2 r hr

/-- The scan result is the first minimizer in scan order: every earlier
point of the scan has a strictly larger error. -/
theorem bestOf_first {E : Type} [LinearOrder E] (err : Point3 → E) :
    ∀ (l : List Point3) (p : Point3), ∃ i, i < (p :: l).length ∧
      (p :: l).getD i (0, 0, 0) = bestOf err p l ∧
      ∀ j < i, err (bestOf err p l) < err ((p :: l).getD j (0, 0, 0)) := by
  intro l
  induction l with
  | nil =>
    intro p
    refine ⟨0, by simp, by simp [bestOf], ?_⟩
    intro j hj
    exact absurd hj (Nat.not_lt_zero j)
  | cons q qs ih =>
    intro p
    simp only [bestOf]
    by_cases hc : err q < err p
    · rw [if_pos hc]
      obtain ⟨i, hlen, hget, hfirst⟩ := ih q
      refine ⟨i + 1, ?_, ?_, ?_⟩
      · simp only [List.length_cons] at hlen ⊢
        omega
      · simpa only [List.getD_cons_succ] using hget
      · intro j hj
        cases j with
        | zero =>
          simp only [List.getD_cons_zero]
          exact lt_of_le_of_lt (bestOf_le_all err qs q).1 hc
        | succ j =>
          have := hfirst j (by omega)
          simpa only [List.getD_cons_succ] using this
    · rw [if_neg hc]
      obtain ⟨i, hlen, hget, hfirst⟩ := ih p
      cases i with
      | zero =>
        refine ⟨0, by simp, ?_, ?_⟩
        · simpa only [List.getD_cons_zero] using hget
        · intro j hj
          exact absurd hj (Nat.not_lt_zero j)
      | succ i =>
        refine ⟨i + 2, ?_, ?_, ?_⟩
        · simp only [List.length_cons] at hlen ⊢
          omega
        · simpa only [List.getD_cons_succ] using hget
        · intro j hj
          cases j with
          | zero =>
            have h0 := hfirst 0 (Nat.succ_pos i)
            simpa only [List.getD_cons_zero] using h0
          | succ j =>
            cases j with
            | zero =>
              have h0 := hfirst 0 (Nat.succ_pos i)
              simp only [List.getD_cons_zero] at h0
              simp only [List.getD_cons_succ, List.getD_cons_zero]
              exact lt_of_lt_of_le h0 (not_lt.1 hc)
            | succ j =>
              have := hfirst (j + 1) (by omega)
              simpa only [List.getD_cons_succ] using this

/-- A left fold with min stays at or below its start value. -/
theorem foldl_min_le_init {E : Type} [LinearOrder E] :
    ∀ (l : List E) (a : E), l.foldl min a ≤ a := by
  intro l
  induction l with
  | nil => intro a; exact le_refl a
  | cons x l ih => intro a; exact (ih (min a x)).trans (min_le_left a x)

/-- A left fold with min is at or below every list element. -/
theorem foldl_min_le_mem {E : Type} [LinearOrder E] :
    ∀ (l : List E) (a x : E), x ∈ l → l.foldl min a ≤ x := by
  intro l
  induction l with
  | nil => intro a x hx; exact absurd hx (List.not_mem_nil x)
  | cons y l ih =>
    intro a x hx
    rcases List.mem_cons.1 hx with rfl | hx
    · exact (foldl_min_le_init l (min a x)).trans (min_le_right a x)
    · exact ih (min a y) x hx

/-- A left fold with min returns its start value or a list element. -/
theorem foldl_min_mem {E : Type} [LinearOrder E] :
    ∀ (l : List E) (a : E), l.foldl min a = a ∨ l.foldl min a ∈ l := by
  intro l
  induction l with
  | nil => intro a; exact Or.inl rfl
  | cons x l ih =>
    intro a
    rcases ih (min a x) with h | h
    · rcases min_choice a x with hm | hm
      · exact Or.inl (by rw [List.foldl_cons, h, hm])
      · exact Or.inr (by rw [List.foldl_cons, h, hm]; exact List.mem_cons_self x l)
    · exact Or.inr (List.mem_cons_of_mem x (by rw [List.foldl_cons]; exact h))

/-- A left fold with max stays at or above its start value. -/
theorem le_foldl_max_init {E : Type} [LinearOrder E] :
    ∀ (l : List E) (a : E), a ≤ l.foldl max a := by
  intro l
  induction l with
  | nil => intro a; exact le_refl a
  | cons x l ih => intro a; exact (le_max_left a x).trans (ih (max a x))

/-- A left fold with max is at or above every list element. -/
theorem le_foldl_max_mem {E : Type} [LinearOrder E] :
    ∀ (l : List E) (a x : E), x ∈ l → x ≤ l.foldl max a := by
  intro l
  induction l with
  | nil => intro a x hx; exact absurd hx (List.not_mem_nil x)
  | cons y l ih =>
    intro a x hx
    rcases List.mem_cons.1 hx with rfl | hx
    · exact (le_max_right a x).trans (le_foldl_max_init l (max a x))
    · exact ih (max a y) x hx

/-- A left fold with max returns its start value or a list element. -/
theorem foldl_max_mem {E : Type} [LinearOrder E] :
    ∀ (l : List E) (a : E), l.foldl max a = a ∨ l.foldl max a ∈ l := by
  intro l
  induction l with
  | nil => intro a; exact Or.inl rfl
  | cons x l ih =>
    intro a
    rcases ih (max a x) with h | h
    · rcases max_choice a x with hm | hm
      · exact Or.inl (by rw [List.foldl_cons, h, hm])
      · exact Or.inr (by rw [List.foldl_cons, h, hm]; exact List.mem_cons_self x l)
    · exact Or.inr (List.mem_cons_of_mem x (by rw [List.foldl_cons]; exact h))

end GridSearch

namespace GridSearch

/-- Membership in one axis of samples: exactly the points lo + i * step
that stay at or below hi. -/
theorem mem_axisPoints (lo hi step : ℚ) (hs : 0 < step) (hle : lo ≤ hi) (x : ℚ) :
    x ∈ axisPoints lo hi step ↔
      ∃ i : ℕ, x = lo + i * step ∧ lo + i * step ≤ hi := by
  constructor
  · intro hmem
    unfold axisPoints at hmem
    obtain ⟨i, hir, hxeq⟩ := List.mem_map.1 hmem
    rw [List.mem_range] at hir
    have hi2 : i ≤ ⌊(hi - lo) / step⌋₊ := Nat.lt_succ_iff.1 hir
    have hq : (i : ℚ) ≤ (hi - lo) / step :=
      (Nat.le_floor_iff (div_nonneg (by linarith) hs.le)).1 hi2
    have hmul : (i : ℚ) * step ≤ hi - lo := (le_div_iff₀ hs).1 hq
    exact ⟨i, hxeq.symm, by linarith⟩
  · rintro ⟨i, rfl, hle2⟩
    unfold axisPoints
    refine List.mem_map.2 ⟨i, List.mem_range.2 ?_, rfl⟩
    rw [Nat.lt_succ_iff, Nat.le_floor_iff (div_nonneg (by linarith) hs.le), le_div_iff₀ hs]
    linarith

/-- Membership in the lattice: exactly the points of the form
(xmin + i step, ymin + j step, zmin + l step) inside the box. -/
theorem mem_latticePoints (b : Box) (step : ℚ) (hs : 0 < step)
    (hx : b.xmin ≤ b.xmax) (hy : b.ymin ≤ b.ymax) (hz : b.zmin ≤ b.zmax)
    (p : Point3) :
    p ∈ latticePoints b step ↔
      ∃ i j l : ℕ,
        p = (b.xmin + i * step, b.ymin + j * step, b.zmin + l * step) ∧
        b.xmin + i * step ≤ b.xmax ∧ b.ymin + j * step ≤ b.ymax ∧
        b.zmin + l * step ≤ b.zmax := by
  unfold latticePoints
  simp only [List.mem_flatMap, List.mem_map]
  constructor
  · rintro ⟨x, hxm, y, hym, z, hzm, rfl⟩
    obtain ⟨i, rfl, hxle⟩ := (mem_axisPoints _ _ _ hs hx x).1 hxm
    obtain ⟨j, rfl, hyle⟩ := (mem_axisPoints _ _ _ hs hy y).1 hym
    obtain ⟨l, rfl, hzle⟩ := (mem_axisPoints _ _ _ hs hz z).1 hzm
    exact ⟨i, j, l, rfl, hxle, hyle, hzle⟩
  · rintro ⟨i, j, l, rfl, h1, h2, h3⟩
    exact ⟨b.xmin + i * step, (mem_axisPoints _ _ _ hs hx _).2 ⟨i, rfl, h1⟩,
      b.ymin + j * step, (mem_axisPoints _ _ _ hs hy _).2 ⟨j, rfl, h2⟩,
      b.zmin + l * step, (mem_axisPoints _ _ _ hs hz _).2 ⟨l, rfl, h3⟩, rfl⟩

/-- The lattice always holds at least the box corner: even a collapsed
axis yields a sampled plane. -/
theorem latticePoints_ne_nil (b : Box) (step : ℚ) (hs : 0 < step)
    (hx : b.xmin ≤ b.xmax) (hy : b.ymin ≤ b.ymax) (hz : b.zmin ≤ b.zmax) :
    latticePoints b step ≠ [] := by
  have hmem : ((b.xmin, b.ymin, b.zmin) : Point3) ∈ latticePoints b step := by
    rw [mem_latticePoints b step hs hx hy hz]
    exact ⟨0, 0, 0, by simp, by simpa using hx, by simpa using hy, by simpa using hz⟩
  exact List.ne_nil_of_mem hmem

end GridSearch

/-- C8: the modelled GridSearchLocalizer, on every anchor list, positive
step and well-formed box, returns an estimate and an error field such
that: the enumerated lattice consists exactly of the step-multiples
inside the box; the estimate sits at a lattice point carrying its own
summed absolute residual; that residual is minimal over the whole
lattice and the estimate is the first minimizer in scan order; the field
records one residual value per sampled point; and the recorded extrema
are the global minimum and maximum raw error across the scan. -/
theorem C8_gridSearchLocalizer (anchors : List (Point3 × ℚ)) (b : GridSearch.Box)
    (step : ℚ) (hs : 0 < step) (hx : b.xmin ≤ b.xmax) (hy : b.ymin ≤ b.ymax)
    (hz : b.zmin ≤ b.zmax) :
    ∃ (est : Point3 × ℝ) (fld : GridSearch.ErrorField ℝ),
      GridSearch.gridSearchLocalizer anchors b step = some (est, fld) ∧
      (∀ p : Point3, p ∈ GridSearch.latticePoints b step ↔
        ∃ i j l : ℕ,
          p = (b.xmin + i * step, b.ymin + j * step, b.zmin + l * step) ∧
          b.xmin + i * step ≤ b.xmax ∧ b.ymin + j * step ≤ b.ymax ∧
          b.zmin + l * step ≤ b.zmax) ∧
      est.1 ∈ GridSearch.latticePoints b step ∧
      est.2 = GridSearch.dGrid anchors est.1 ∧
      (∀ q ∈ GridSearch.latticePoints b step,
        GridSearch.dGrid anchors est.1 ≤ GridSearch.dGrid anchors q) ∧
      (∃ i, i < (GridSearch.latticePoints b step).length ∧
        (GridSearch.latticePoints b step).getD i (0, 0, 0) = est.1 ∧
        ∀ j < i, GridSearch.dGrid anchors est.1 <
          GridSearch.dGrid anchors ((GridSearch.latticePoints b step).getD j (0, 0, 0))) ∧
      fld.values = (GridSearch.latticePoints b step).map (GridSearch.dGrid anchors) ∧
      fld.emin ∈ fld.values ∧ (∀ v ∈ fld.values, fld.emin ≤ v) ∧
      fld.emax ∈ fld.values ∧ (∀ v ∈ fld.values, v ≤ fld.emax) := by
  have hne := GridSearch.latticePoints_ne_nil b step hs hx hy hz
  cases hl : GridSearch.latticePoints b step with
  | nil => exact absurd hl hne
  | cons p ps =>
    refine ⟨(GridSearch.bestOf (GridSearch.dGrid anchors) p ps,
        GridSearch.dGrid anchors (GridSearch.bestOf (GridSearch.dGrid anchors) p ps)),
      ⟨(p :: ps).map (GridSearch.dGrid anchors),
        (ps.map (GridSearch.dGrid anchors)).foldl min (GridSearch.dGrid anchors p),
        (ps.map (GridSearch.dGrid anchors)).foldl max (GridSearch.dGrid anchors p)⟩,
      ?_, ?_, ?_, rfl, ?_, ?_, rfl, ?_, ?_, ?_, ?_⟩
    · simp only [GridSearch.gridSearchLocalizer, GridSearch.gridSearch, hl]
    · intro q
      rw [← hl]
      exact GridSearch.mem_latticePoints b step hs hx hy hz q
    · rcases GridSearch.bestOf_eq_or_mem (GridSearch.dGrid anchors) ps p with h | h
      · rw [h]; exact List.mem_cons_self p ps
      · exact List.mem_cons_of_mem p h
    · intro q hq
      rcases List.mem_cons.1 hq with rfl | hq
      · exact (GridSearch.bestOf_le_all (GridSearch.dGrid anchors) ps q).1
      · exact (GridSearch.bestOf_le_all (GridSearch.dGrid anchors) ps p).2 q hq
    · exact GridSearch.bestOf_first (GridSearch.dGrid anchors) ps p
    · rcases GridSearch.foldl_min_mem (ps.map (GridSearch.dGrid anchors))
          (GridSearch.dGrid anchors p) with h | h
      · rw [h]; exact List.mem_cons_self _ _
      · exact List.mem_cons_of_mem _ h
    · intro v hv
      rcases List.mem_cons.1 hv with rfl | hv
      · exact GridSearch.foldl_min_le_init _ _
      · exact GridSearch.foldl_min_le_mem _ _ v hv
    · rcases GridSearch.foldl_max_mem (ps.map (GridSearch.dGrid anchors))
          (GridSearch.dGrid anchors p) with h | h
      · rw [h]; exact List.mem_cons_self _ _
      · exact List.mem_cons_of_mem _ h
    · intro v hv
      rcases List.mem_cons.1 hv with rfl | hv
      · exact GridSearch.le_foldl_max_init _ _
      · exact GridSearch.le_foldl_max_mem _ _ v hv

/-- C8 witness: the theorem applied to one anchor at the origin with
distance 1, the unit box and step 1. -/
theorem C8_gridSearchLocalizer_witness :
    ∃ (est : Point3 × ℝ) (fld : GridSearch.ErrorField ℝ),
      GridSearch.gridSearchLocalizer [(((0 : ℚ), (0 : ℚ), (0 : ℚ)), 1)]
        ⟨0, 1, 0, 1, 0, 1⟩ 1 = some (est, fld) := by
  obtain ⟨est, fld, h⟩ :=
    C8_gridSearchLocalizer [(((0 : ℚ), (0 : ℚ), (0 : ℚ)), 1)] ⟨0, 1, 0, 1, 0, 1⟩ 1
      (by decide) (by decide) (by decide) (by decide)
  exact ⟨est, fld, h.1⟩

end PositioningSystem
